import Mathlib

/-!
# Verification of the fantasyflow stat pipeline

Shallow embedding, over `ℚ`, of the player-identity resolver
(`src/services/playerMatcher.ts`), the daily stat aggregator
(`src/services/mlbStatService.ts`), the weekly aggregation engine
(`DataService.getWeeklyStats` and `espnApiService.computeWeekStats`),
the request cache/deduplication layer (`DataService.fetchWithCache`)
and the projection-window defaults (`DataService.getExpectedStats`,
`WeeklyEstimateService.getLast4WeeksData`).

JavaScript numbers are modelled as rationals (`ℚ`); `x.toFixed(d)`
followed by unary plus is modelled as rounding to `d` decimal digits.
JavaScript string falsiness (`s || d`) is modelled explicitly with the
empty string as the falsy case.  External library calls (`Fuse.search`
and `compareTwoStrings` from string-similarity) are taken as function
parameters of the embedding, so every theorem quantifies over their
behaviour (bounded by hypotheses where a claim assumes score ranges).
-/

namespace FantasyFlow

/-! ## Character/string helpers

`normalizeName` in the source lower-cases, applies Unicode NFD and strips
combining marks, removes every character other than `a`-`z` and
whitespace, collapses whitespace runs and trims.  On the embedded
alphabet (characters surviving the `[^a-z\s]` filter) NFD and the
combining-mark strip are the identity, so they do not appear below. -/

def spaceChar : Char := Char.ofNat 32

def isLowerAlpha (c : Char) : Bool := ('a' ≤ c && c ≤ 'z')

/-- Collapse runs of consecutive spaces to a single space. -/
def squeezeSpaces : List Char → List Char
  | [] => []
  | [c] => [c]
  | c :: c2 :: cs =>
    if c = spaceChar ∧ c2 = spaceChar then squeezeSpaces (c2 :: cs)
    else c :: squeezeSpaces (c2 :: cs)

def dropSpaces (l : List Char) : List Char := l.dropWhile (fun c => c = spaceChar)

def trimSpaces (l : List Char) : List Char :=
  (dropSpaces ((dropSpaces l.reverse).reverse))

def toUpperString (s : String) : String := String.mk (s.data.map Char.toUpper)

/-- Does `hay` start with `pat`? -/
def leadsWith : List Char → List Char → Bool
  | [], _ => true
  | _ :: _, [] => false
  | a :: as, b :: bs => a = b && leadsWith as bs

/-- Substring containment on character lists (models JS `String.includes`). -/
def containsChars (pat : List Char) : List Char → Bool
  | [] => leadsWith pat []
  | c :: t => leadsWith pat (c :: t) || containsChars pat t

/-- `PlayerMatcher.normalizeName`: lower-case, keep only letters and
spaces, collapse space runs, trim. -/
def normalizeName (name : String) : String :=
  String.mk (trimSpaces (squeezeSpaces
    ((name.data.map Char.toLower).filter (fun c => isLowerAlpha c || c = spaceChar))))

/-- `PlayerMatcher.teamAbbreviationMap`: canonical codes plus alternate
abbreviations, as a lookup function. -/
def teamAbbreviationMap (s : String) : Option String :=
  match s with
  | "LAA" => some "LAA" | "HOU" => some "HOU" | "OAK" => some "OAK"
  | "TOR" => some "TOR" | "ATL" => some "ATL" | "MIL" => some "MIL"
  | "STL" => some "STL" | "CHC" => some "CHC" | "ARI" => some "ARI"
  | "LAD" => some "LAD" | "SF" => some "SF" | "CLE" => some "CLE"
  | "SEA" => some "SEA" | "MIA" => some "MIA" | "NYM" => some "NYM"
  | "WSH" => some "WSH" | "BAL" => some "BAL" | "SD" => some "SD"
  | "PHI" => some "PHI" | "PIT" => some "PIT" | "TEX" => some "TEX"
  | "TB" => some "TB" | "BOS" => some "BOS" | "CIN" => some "CIN"
  | "COL" => some "COL" | "KC" => some "KC" | "DET" => some "DET"
  | "MIN" => some "MIN" | "CWS" => some "CWS" | "NYY" => some "NYY"
  | "SFG" => some "SF" | "WSN" => some "WSH" | "TBR" => some "TB"
  | "KCR" => some "KC" | "CHW" => some "CWS" | "SDP" => some "SD"
  | _ => none

/-- `PlayerMatcher.normalizeTeam`: upper-case, trim, then alias lookup
falling back to the normalized input. -/
def normalizeTeam (team : String) : String :=
  let n := String.mk (trimSpaces (toUpperString team).data)
  (teamAbbreviationMap n).getD n

/-- `PlayerMatcher.positionMap` with the source's `|| [espnPosition]`
fallback folded in. -/
def positionMap (p : String) : List String :=
  match p with
  | "C" => ["C"]
  | "1B" => ["1B"]
  | "2B" => ["2B"]
  | "3B" => ["3B"]
  | "SS" => ["SS"]
  | "OF" => ["LF", "CF", "RF", "OF"]
  | "LF" => ["LF", "OF"]
  | "CF" => ["CF", "OF"]
  | "RF" => ["RF", "OF"]
  | "DH" => ["DH"]
  | "SP" => ["P", "SP"]
  | "RP" => ["P", "RP"]
  | "P" => ["P", "SP", "RP"]
  | other => [other]

/-- `PlayerMatcher.isPositionMatch`; a missing (empty) position on either
side counts as compatible. -/
def isPositionMatch (espnPosition mlbPosition : String) : Bool :=
  if espnPosition = "" ∨ mlbPosition = "" then true
  else (positionMap espnPosition).contains (toUpperString mlbPosition)

/-! ## Matcher data model (`playerMatcher.ts`) -/

structure MLBTeam where
  name : String
  abbreviation : String
  deriving Repr, DecidableEq

structure MLBPosition where
  code : String
  posName : String
  deriving Repr, DecidableEq

/-- Raw per-game batting counts consumed by the aggregators
(`Number(x || 0)` is modelled by the fields being plain rationals). -/
structure RawBatting where
  runs : ℚ
  homeRuns : ℚ
  rbi : ℚ
  stolenBases : ℚ
  hits : ℚ
  atBats : ℚ
  deriving Repr, DecidableEq

/-- Raw per-game pitching counts and rate inputs. -/
structure RawPitching where
  strikeOuts : ℚ
  wins : ℚ
  saves : ℚ
  inningsPitched : ℚ
  earnedRuns : ℚ
  hits : ℚ
  baseOnBalls : ℚ
  deriving Repr, DecidableEq

structure StatsPair where
  batting : Option RawBatting
  pitching : Option RawPitching
  deriving Repr, DecidableEq

/-- `MLBPlayer` from `playerMatcher.ts`. -/
structure MLBPlayer where
  id : ℕ
  fullName : String
  team : MLBTeam
  position : Option MLBPosition
  stats : Option StatsPair
  deriving Repr, DecidableEq

/-- `ESPNPlayer` from `playerMatcher.ts`. -/
structure ESPNPlayer where
  playerId : ℕ
  fullName : String
  teamAbbrev : Option String
  position : Option String
  lineupSlotId : ℤ
  deriving Repr, DecidableEq

/-- `PlayerMatch` from `playerMatcher.ts`. -/
structure PlayerMatch where
  espnPlayer : ESPNPlayer
  mlbPlayer : Option MLBPlayer
  confidence : ℚ
  matchReason : String
  warnings : List String
  deriving Repr, DecidableEq

/-- `PlayerMatcher.extractTeamAbbrev`: use the abbreviation when present,
else scan the team-name table, else first three characters upper-cased. -/
def teamNameMap : List (String × String) :=
  [("Angels", "LAA"), ("Astros", "HOU"), ("Athletics", "OAK"),
   ("Blue Jays", "TOR"), ("Braves", "ATL"), ("Brewers", "MIL"),
   ("Cardinals", "STL"), ("Cubs", "CHC"), ("Diamondbacks", "ARI"),
   ("Dodgers", "LAD"), ("Giants", "SF"), ("Guardians", "CLE"),
   ("Mariners", "SEA"), ("Marlins", "MIA"), ("Mets", "NYM"),
   ("Nationals", "WSH"), ("Orioles", "BAL"), ("Padres", "SD"),
   ("Phillies", "PHI"), ("Pirates", "PIT"), ("Rangers", "TEX"),
   ("Rays", "TB"), ("Red Sox", "BOS"), ("Reds", "CIN"),
   ("Rockies", "COL"), ("Royals", "KC"), ("Tigers", "DET"),
   ("Twins", "MIN"), ("White Sox", "CWS"), ("Yankees", "NYY")]

def extractTeamAbbrev (t : MLBTeam) : String :=
  if t.abbreviation ≠ "" then normalizeTeam t.abbreviation
  else
    match teamNameMap.find? (fun p => containsChars p.1.data t.name.data) with
    | some p => p.2
    | none => String.mk ((t.name.data.take 3).map Char.toUpper)

def teamMismatchWarning (espnTeam mlbTeam : String) : String :=
  "Team mismatch: ESPN(" ++ espnTeam ++ ") vs MLB(" ++ mlbTeam ++ ")"

def positionMismatchWarning (espnPos mlbPos : String) : String :=
  "Position mismatch: ESPN(" ++ espnPos ++ ") vs MLB(" ++ mlbPos ++ ")"

/-- The initial "no match" record for a roster entry. -/
def noMatch (e : ESPNPlayer) : PlayerMatch :=
  { espnPlayer := e, mlbPlayer := none, confidence := 0,
    matchReason := "No match found", warnings := [] }

instance : Inhabited PlayerMatch := ⟨noMatch ⟨0, "", none, none, 0⟩⟩

/-- Strategy 1 body for one candidate: exact normalized-name match with
team verification; replaces `best` only on strictly greater confidence. -/
def strat1Step (e : ESPNPlayer) (nName espnTeam : String) (used : List ℕ)
    (best : PlayerMatch) (m : MLBPlayer) : PlayerMatch :=
  if m.id ∈ used then best
  else if normalizeName m.fullName = nName then
    let mlbTeam := extractTeamAbbrev m.team
    let teamMatch := espnTeam = mlbTeam
    let posMatch := isPositionMatch ((e.position).getD "") (((m.position).map MLBPosition.code).getD "")
    let confidence : ℚ :=
      if teamMatch then 0.9 + 0.1
      else if espnTeam ≠ "" ∧ mlbTeam ≠ "" then 0.9 - 0.2
      else 0.9
    let matchReason :=
      if teamMatch then "Exact name match + team match" else "Exact name match"
    let warnings :=
      (if ¬teamMatch ∧ espnTeam ≠ "" ∧ mlbTeam ≠ "" then
        [teamMismatchWarning espnTeam mlbTeam] else []) ++
      (if ¬posMatch then
        [positionMismatchWarning ((e.position).getD "undefined")
          (((m.position).map MLBPosition.code).getD "undefined")] else [])
    if best.confidence < confidence then
      { espnPlayer := e, mlbPlayer := some m, confidence := confidence,
        matchReason := matchReason, warnings := warnings }
    else best
  else best

/-- The confidence expression of strategy 2: the better of the two
similarity scores weighted by 0.7, plus the team bonus/penalty and the
position bonus. -/
def fuzzyConfidence (cmp : String → String → ℚ) (e : ESPNPlayer)
    (nName espnTeam : String) (r : MLBPlayer × ℚ) : ℚ :=
  let mlbTeam := extractTeamAbbrev r.1.team
  let teamMatch := espnTeam = mlbTeam
  let posMatch := isPositionMatch ((e.position).getD "") (((r.1.position).map MLBPosition.code).getD "")
  let nameScore : ℚ := 1 - r.2
  let stringSimilarity := cmp nName (normalizeName r.1.fullName)
  let nameSimilarity := max nameScore stringSimilarity
  nameSimilarity * 0.7 +
    (if teamMatch then 0.2
     else if espnTeam ≠ "" ∧ mlbTeam ≠ "" then -0.1
     else 0) +
    (if posMatch then 0.1 else 0)

/-- Strategy 2 body for one fuzzy result `(candidate, fuseScore)`:
confidence from the best of the two similarity scores plus team and
position adjustments; accepted only above both the current best and the
0.5 floor.  The percentage interpolated into the reason string in the
source is elided (no claim concerns it). -/
def strat2Step (cmp : String → String → ℚ) (e : ESPNPlayer)
    (nName espnTeam : String) (used : List ℕ)
    (best : PlayerMatch) (r : MLBPlayer × ℚ) : PlayerMatch :=
  let m := r.1
  if m.id ∈ used then best
  else
    let mlbTeam := extractTeamAbbrev m.team
    let teamMatch := espnTeam = mlbTeam
    let posMatch := isPositionMatch ((e.position).getD "") (((m.position).map MLBPosition.code).getD "")
    let confidence : ℚ := fuzzyConfidence cmp e nName espnTeam r
    let matchReason :=
      if teamMatch then "Fuzzy name match + team match" else "Fuzzy name match"
    let warnings :=
      (if ¬teamMatch ∧ espnTeam ≠ "" ∧ mlbTeam ≠ "" then
        [teamMismatchWarning espnTeam mlbTeam] else []) ++
      (if ¬posMatch then
        [positionMismatchWarning ((e.position).getD "undefined")
          (((m.position).map MLBPosition.code).getD "undefined")] else [])
    if best.confidence < confidence ∧ (0.5 : ℚ) < confidence then
      { espnPlayer := e, mlbPlayer := some m, confidence := confidence,
        matchReason := matchReason, warnings := warnings }
    else best

/-- Best match for one roster entry: strategy 1 over the full candidate
pool, then, when confidence is still below 0.8, strategy 2 over the top
five fuzzy-search results.  `fz` models `new Fuse(mlbPlayers, ...).search`. -/
def matchOne (fz : List MLBPlayer → String → List (MLBPlayer × ℚ))
    (cmp : String → String → ℚ) (pool : List MLBPlayer) (used : List ℕ)
    (e : ESPNPlayer) : PlayerMatch :=
  let nName := normalizeName e.fullName
  let espnTeam := normalizeTeam ((e.teamAbbrev).getD "")
  let best1 := pool.foldl (strat1Step e nName espnTeam used) (noMatch e)
  if best1.confidence < 0.8 then
    ((fz pool nName).take 5).foldl (strat2Step cmp e nName espnTeam used) best1
  else best1

/-- The matcher loop: one `PlayerMatch` per roster entry, in roster
order, with claimed candidate ids accumulating in `used`. -/
def matchPlayersAux (fz : List MLBPlayer → String → List (MLBPlayer × ℚ))
    (cmp : String → String → ℚ) (pool : List MLBPlayer) :
    List ESPNPlayer → List ℕ → List PlayerMatch
  | [], _ => []
  | e :: rest, used =>
    let best := matchOne fz cmp pool used e
    let used2 := match best.mlbPlayer with
      | some m => m.id :: used
      | none => used
    best :: matchPlayersAux fz cmp pool rest used2

/-- `PlayerMatcher.matchPlayers`. -/
def matchPlayers (fz : List MLBPlayer → String → List (MLBPlayer × ℚ))
    (cmp : String → String → ℚ) (espnPlayers : List ESPNPlayer)
    (mlbPlayers : List MLBPlayer) : List PlayerMatch :=
  matchPlayersAux fz cmp mlbPlayers espnPlayers []

/-! ## Daily stat aggregator (`mlbStatService.ts`) -/

structure Hitting where
  AB : ℚ
  R : ℚ
  H : ℚ
  HR : ℚ
  RBI : ℚ
  SB : ℚ
  AVG : ℚ
  deriving Repr, DecidableEq

structure Pitching where
  IP : ℚ
  K : ℚ
  W : ℚ
  SV : ℚ
  ERA : ℚ
  WHIP : ℚ
  QS : ℚ
  deriving Repr, DecidableEq

/-- `PlayerDailyStat` from `mlbStatService.ts`. -/
structure PlayerDailyStat where
  playerId : ℕ
  date : String
  hitting : Hitting
  pitching : Pitching
  deriving Repr, DecidableEq

/-- One player appearance inside a game feed: `p.stats?.batting ?? ` an
empty record, modelled by `Option` (a missing group contributes all
zeros through `Number(x || 0)`). -/
structure Appearance where
  id : ℕ
  batting : Option RawBatting
  pitching : Option RawPitching
  deriving Repr, DecidableEq

/-- One game of the schedule feed: the two team sides' player lists. -/
structure Game where
  home : List Appearance
  away : List Appearance
  deriving Repr, DecidableEq

def zeroBatting : RawBatting := ⟨0, 0, 0, 0, 0, 0⟩

def zeroRawPitching : RawPitching := ⟨0, 0, 0, 0, 0, 0, 0⟩

def blankDaily (id : ℕ) (date : String) : PlayerDailyStat :=
  { playerId := id, date := date,
    hitting := ⟨0, 0, 0, 0, 0, 0, 0⟩,
    pitching := ⟨0, 0, 0, 0, 0, 0, 0⟩ }

/-- `x.toFixed(d)` followed by unary plus, for the nonnegative rationals
arising here: round to `d` decimal digits. -/
def roundTo (d : ℕ) (q : ℚ) : ℚ := (Int.floor (q * 10 ^ d + 1 / 2) : ℚ) / 10 ^ d

/-- The per-appearance accumulation of `getDailyStatsMap`: batting and
pitching counts summed; the `ERA` field holds the running earned-run
total and the `WHIP` field the running `hits + walks` numerator until
finalization; a Quality Start counts per appearance with `IP ≥ 6` and
`ER ≤ 3`. -/
def accumAppearance (s : PlayerDailyStat) (a : Appearance) : PlayerDailyStat :=
  let b := (a.batting).getD zeroBatting
  let p := (a.pitching).getD zeroRawPitching
  { s with
    hitting := { s.hitting with
      R := s.hitting.R + b.runs
      HR := s.hitting.HR + b.homeRuns
      RBI := s.hitting.RBI + b.rbi
      SB := s.hitting.SB + b.stolenBases
      H := s.hitting.H + b.hits
      AB := s.hitting.AB + b.atBats }
    pitching := { s.pitching with
      K := s.pitching.K + p.strikeOuts
      W := s.pitching.W + p.wins
      SV := s.pitching.SV + p.saves
      IP := s.pitching.IP + p.inningsPitched
      ERA := s.pitching.ERA + p.earnedRuns
      WHIP := s.pitching.WHIP + (p.hits + p.baseOnBalls)
      QS := s.pitching.QS +
        (if 6 ≤ p.inningsPitched ∧ p.earnedRuns ≤ 3 then 1 else 0) } }

/-- A per-day player map, keyed by statistics-provider player id, in
first-insertion order (JS object with numeric keys; order is irrelevant
to every claim below). -/
abbrev DayMap := List (ℕ × PlayerDailyStat)

instance : Inhabited PlayerDailyStat := ⟨blankDaily 0 ""⟩

def updDayMap (date : String) (a : Appearance) : DayMap → DayMap
  | [] => [(a.id, accumAppearance (blankDaily a.id date) a)]
  | (k, v) :: rest =>
    if k = a.id then (k, accumAppearance v a) :: rest
    else (k, v) :: updDayMap date a rest

def ingestGame (date : String) (m : DayMap) (g : Game) : DayMap :=
  (g.home ++ g.away).foldl (fun acc a => updDayMap date a acc) m

/-- Raw (pre-finalization) day map over all games of the date. -/
def dayMapRaw (date : String) (games : List Game) : DayMap :=
  games.foldl (ingestGame date) []

/-- Finalization step of `getDailyStatsMap`: derive `AVG`, `ERA` and
`WHIP` from the accumulated components, each `0` on a zero denominator,
rounded as in the source (`toFixed(3)` / `toFixed(2)`). -/
def finalizeDaily (s : PlayerDailyStat) : PlayerDailyStat :=
  { s with
    hitting := { s.hitting with
      AVG := if s.hitting.AB = 0 then 0 else roundTo 3 (s.hitting.H / s.hitting.AB) }
    pitching := { s.pitching with
      ERA := if s.pitching.IP = 0 then 0 else roundTo 2 (s.pitching.ERA * 9 / s.pitching.IP)
      WHIP := if s.pitching.IP = 0 then 0 else roundTo 2 (s.pitching.WHIP / s.pitching.IP) } }

def dayMapFinal (date : String) (games : List Game) : DayMap :=
  (dayMapRaw date games).map (fun kv => (kv.1, finalizeDaily kv.2))

/-- Outcome of the single upstream fetch performed by `getDailyStatsMap`:
a parsed game feed, a non-OK HTTP status (which the source turns into a
thrown error), or a transport error. -/
inductive FetchOutcome where
  | ok (games : List Game)
  | httpError (status : ℕ)
  | networkError
  deriving Repr, DecidableEq

def lookupAssoc {α : Type} (m : List (String × α)) (k : String) : Option α :=
  (m.find? (fun kv => kv.1 = k)).map Prod.snd

/-- `MLBStatService.getDailyStatsMap` as a state transformer over the
per-process `dayCache`.  Returns the produced map, the new cache, and
whether the upstream service was contacted.  On any fetch failure the
(still empty) map is returned, cached under the date, and no error is
raised. -/
def getDailyStatsMap (cache : List (String × DayMap)) (date : String)
    (fetch : FetchOutcome) : DayMap × List (String × DayMap) × Bool :=
  match lookupAssoc cache date with
  | some m => (m, cache, false)
  | none =>
    match fetch with
    | FetchOutcome.ok games =>
      let m := dayMapFinal date games
      (m, (date, m) :: cache, true)
    | _ => ([], (date, ([] : DayMap)) :: cache, true)

/-! ## Weekly aggregation engine (`DataService.getWeeklyStats`) -/

/-- A raw roster row as consumed by `getWeeklyStats` (the source treats
it as `any`; only these fields are read). -/
structure RosterEntry where
  playerId : ℕ
  fullName : Option String
  name : Option String
  teamAbbrev : Option String
  teamAlt : Option String
  teamId : Option ℕ
  position : Option String
  lineupSlotId : ℤ
  status : String
  deriving Repr, DecidableEq

/-- JS `a || b` on optionally-present strings (empty string is falsy). -/
def jsOrOpt (a b : Option String) : Option String :=
  match a with
  | some s => if s = "" then b else some s
  | none => b

def pickStr (a : Option String) (d : String) : String :=
  match a with
  | some s => if s = "" then d else s
  | none => d

/-- The starters filter of `getWeeklyStats` (and `getProjectedStarters`):
drop bench (slot 16) and injured-list (slot 17) rows and rows whose
status is not `ACTIVE`.  (`DailyLineup.tsx` fixes `BENCH_SLOT_ID = 16`,
`IL_SLOT_ID = 17`.) -/
def isStarter (p : RosterEntry) : Bool :=
  p.lineupSlotId ≠ 16 ∧ p.lineupSlotId ≠ 17 ∧ p.status = "ACTIVE"

/-- The `starters.map(...)` conversion into the matcher interface. -/
def toESPNPlayer (p : RosterEntry) : ESPNPlayer :=
  { playerId := p.playerId,
    fullName := pickStr p.fullName (pickStr p.name "Unknown"),
    teamAbbrev := jsOrOpt p.teamAbbrev p.teamAlt,
    position := p.position,
    lineupSlotId := p.lineupSlotId }

/-- The mutable aggregate of the per-team loop of `getWeeklyStats`:
the displayed stat block plus the rate-component accumulators. -/
structure WeekAccum where
  runs : ℚ
  homeRuns : ℚ
  rbis : ℚ
  stolenBases : ℚ
  hits : ℚ
  strikeouts : ℚ
  wins : ℚ
  saves : ℚ
  qualityStarts : ℚ
  abTotal : ℚ
  hTotal : ℚ
  eraER : ℚ
  eraIP : ℚ
  whipNum : ℚ
  whipIP : ℚ
  totalMatches : ℕ
  deriving Repr, DecidableEq

def initAccum : WeekAccum := ⟨0, 0, 0, 0, 0, 0, 0, 0, 0, 0, 0, 0, 0, 0, 0, 0⟩

/-- The per-match accumulation step of `getWeeklyStats`: a match
contributes only when it carries a resolved record of confidence at
least 0.5 with a stats block; batting and pitching groups each
contribute when present. -/
def accumMatch (acc : WeekAccum) (m : PlayerMatch) : WeekAccum :=
  match m.mlbPlayer with
  | none => acc
  | some p =>
    if (0.5 : ℚ) ≤ m.confidence then
      match p.stats with
      | none => acc
      | some st =>
        let acc1 := match st.batting with
          | none => acc
          | some b =>
            { acc with
              runs := acc.runs + b.runs
              homeRuns := acc.homeRuns + b.homeRuns
              rbis := acc.rbis + b.rbi
              stolenBases := acc.stolenBases + b.stolenBases
              hits := acc.hits + b.hits
              abTotal := acc.abTotal + b.atBats
              hTotal := acc.hTotal + b.hits }
        let acc2 := match st.pitching with
          | none => acc1
          | some pt =>
            { acc1 with
              strikeouts := acc1.strikeouts + pt.strikeOuts
              wins := acc1.wins + pt.wins
              saves := acc1.saves + pt.saves
              eraIP := acc1.eraIP + pt.inningsPitched
              eraER := acc1.eraER + pt.earnedRuns
              whipNum := acc1.whipNum + (pt.hits + pt.baseOnBalls)
              whipIP := acc1.whipIP + pt.inningsPitched
              qualityStarts := acc1.qualityStarts +
                (if 6 ≤ pt.inningsPitched ∧ pt.earnedRuns ≤ 3 then 1 else 0) }
        { acc2 with totalMatches := acc2.totalMatches + 1 }
    else acc

/-- Matches produced for one day of the week: the roster is filtered to
starters, converted, and resolved against that day's candidates; the
source skips the day when the starter list or the candidate list is
empty. -/
def dayMatches (fz : List MLBPlayer → String → List (MLBPlayer × ℚ))
    (cmp : String → String → ℚ)
    (roster : List RosterEntry) (mlbPlayers : List MLBPlayer) : List PlayerMatch :=
  let starters := roster.filter isStarter
  if starters = [] then []
  else if mlbPlayers = [] then []
  else matchPlayers fz cmp (starters.map toESPNPlayer) mlbPlayers

def processDay (fz : List MLBPlayer → String → List (MLBPlayer × ℚ))
    (cmp : String → String → ℚ) (acc : WeekAccum)
    (day : List RosterEntry × List MLBPlayer) : WeekAccum :=
  (dayMatches fz cmp day.1 day.2).foldl accumMatch acc

/-- The accumulator after all days of the week are processed. -/
def weekAccum (fz : List MLBPlayer → String → List (MLBPlayer × ℚ))
    (cmp : String → String → ℚ)
    (days : List (List RosterEntry × List MLBPlayer)) : WeekAccum :=
  days.foldl (processDay fz cmp) initAccum

/-- The displayed weekly stat block of `getWeeklyStats`. -/
structure WeekAgg where
  runs : ℚ
  homeRuns : ℚ
  rbis : ℚ
  stolenBases : ℚ
  battingAverage : ℚ
  hits : ℚ
  strikeouts : ℚ
  wins : ℚ
  saves : ℚ
  era : ℚ
  whip : ℚ
  qualityStarts : ℚ
  deriving Repr, DecidableEq

/-- Final rate derivation of `getWeeklyStats`: only after all days are
processed are the three rates derived from the accumulated totals, each
`0` on a zero denominator (JS numeric truthiness). -/
def finalizeWeek (acc : WeekAccum) : WeekAgg :=
  { runs := acc.runs, homeRuns := acc.homeRuns, rbis := acc.rbis,
    stolenBases := acc.stolenBases, hits := acc.hits,
    strikeouts := acc.strikeouts, wins := acc.wins, saves := acc.saves,
    qualityStarts := acc.qualityStarts,
    battingAverage := if acc.abTotal = 0 then 0 else acc.hTotal / acc.abTotal,
    era := if acc.eraIP = 0 then 0 else acc.eraER * 9 / acc.eraIP,
    whip := if acc.whipIP = 0 then 0 else acc.whipNum / acc.whipIP }

/-- One team-week of `getWeeklyStats`. -/
def getWeeklyStatsAgg (fz : List MLBPlayer → String → List (MLBPlayer × ℚ))
    (cmp : String → String → ℚ)
    (days : List (List RosterEntry × List MLBPlayer)) : WeekAgg :=
  finalizeWeek (weekAccum fz cmp days)

/-! ## Weekly aggregation, snapshot path (`espnApiService.computeWeekStats`)

This path reads finalized `PlayerDailyStat` day maps and back-derives
the earned-run and walks-plus-hits components from the stored daily
rates (`totalER += ERA·IP/9`, `totalWHIPNum += WHIP·IP`), accumulating
only appearances with `IP > 0`. -/

structure SnapAccum where
  runs : ℚ
  homeRuns : ℚ
  rbis : ℚ
  stolenBases : ℚ
  hits : ℚ
  strikeouts : ℚ
  wins : ℚ
  saves : ℚ
  qualityStarts : ℚ
  totalAB : ℚ
  totalH : ℚ
  totalIP : ℚ
  totalER : ℚ
  totalWHIPNum : ℚ
  deriving Repr, DecidableEq

def initSnapAccum : SnapAccum := ⟨0, 0, 0, 0, 0, 0, 0, 0, 0, 0, 0, 0, 0, 0⟩

def lookupDay (m : DayMap) (pid : ℕ) : Option PlayerDailyStat :=
  (m.find? (fun kv => kv.1 = pid)).map Prod.snd

def snapAccumPlayer (dayMap : DayMap) (acc : SnapAccum) (pid : ℕ) : SnapAccum :=
  match lookupDay dayMap pid with
  | none => acc
  | some stat =>
    let acc1 :=
      { acc with
        runs := acc.runs + stat.hitting.R
        homeRuns := acc.homeRuns + stat.hitting.HR
        rbis := acc.rbis + stat.hitting.RBI
        stolenBases := acc.stolenBases + stat.hitting.SB
        hits := acc.hits + stat.hitting.H
        totalAB := acc.totalAB + stat.hitting.AB
        totalH := acc.totalH + stat.hitting.H
        strikeouts := acc.strikeouts + stat.pitching.K
        wins := acc.wins + stat.pitching.W
        saves := acc.saves + stat.pitching.SV
        qualityStarts := acc.qualityStarts + stat.pitching.QS }
    if 0 < stat.pitching.IP then
      { acc1 with
        totalIP := acc1.totalIP + stat.pitching.IP
        totalER := acc1.totalER + stat.pitching.ERA * stat.pitching.IP / 9
        totalWHIPNum := acc1.totalWHIPNum + stat.pitching.WHIP * stat.pitching.IP }
    else acc1

def snapAccumDay (acc : SnapAccum) (day : DayMap × List ℕ) : SnapAccum :=
  day.2.foldl (snapAccumPlayer day.1) acc

/-- `computeWeekStats` for one team over the week's (day map, roster
snapshot) pairs, including the final `toFixed` roundings. -/
def computeWeekStats (days : List (DayMap × List ℕ)) : WeekAgg :=
  let acc := days.foldl snapAccumDay initSnapAccum
  { runs := acc.runs, homeRuns := acc.homeRuns, rbis := acc.rbis,
    stolenBases := acc.stolenBases, hits := acc.hits,
    strikeouts := acc.strikeouts, wins := acc.wins, saves := acc.saves,
    qualityStarts := acc.qualityStarts,
    battingAverage := if acc.totalAB = 0 then 0 else roundTo 3 (acc.totalH / acc.totalAB),
    era := if acc.totalIP = 0 then 0 else roundTo 2 (acc.totalER * 9 / acc.totalIP),
    whip := if acc.totalIP = 0 then 0 else roundTo 2 (acc.totalWHIPNum / acc.totalIP) }

/-- `STARTER_SLOT_IDS` from `dataService` (used by the snapshot path's
roster filter; its comment places bench at 23 and IL at 24-25). -/
def STARTER_SLOT_IDS : List ℤ :=
  [0, 1, 2, 3, 4, 5, 6, 7, 8, 9, 10, 11, 12, 13, 14, 15, 16, 17, 18, 19, 20, 21]

/-! ## Request cache and deduplication layer (`DataService.fetchWithCache`)

JavaScript is single-threaded: the synchronous prefix of
`fetchWithCache` — the cache check, the pending-request check, starting
the producer (`executeRequest` runs `fetcher()` before its first await)
and registering the pending promise — executes atomically before the
caller suspends.  `arrive` is that atomic prefix as a state transition;
a promise is identified by a fresh id, and two callers holding the same
promise id receive the same eventual result.  `settle` is the shared
continuation that caches a success and removes the in-flight marker. -/

structure APIConfig where
  useRealAPI : Bool
  enableCaching : Bool
  cacheTimeout : ℕ
  maxConcurrentRequests : ℕ
  requestDeduplication : Bool
  deriving Repr, DecidableEq

/-- The `DataService` constructor-time configuration. -/
def defaultConfig : APIConfig :=
  { useRealAPI := true, enableCaching := true,
    cacheTimeout := 12 * 60 * 60 * 1000,
    maxConcurrentRequests := 5, requestDeduplication := true }

structure DedupState where
  cache : List (String × ℕ × ℕ)
  pending : List (String × ℕ)
  producerCalls : ℕ
  nextPromise : ℕ
  totalRequests : ℕ
  cacheHits : ℕ
  cacheMisses : ℕ
  deriving Repr, DecidableEq

def initDedupState : DedupState := ⟨[], [], 0, 0, 0, 0, 0⟩

inductive ArriveResult where
  | cacheHit (v : ℕ)
  | joined (p : ℕ)
  | started (p : ℕ)
  deriving Repr, DecidableEq

def lookupNat {α : Type} (m : List (String × α)) (k : String) : Option α :=
  (m.find? (fun kv => kv.1 = k)).map Prod.snd

/-- Is there a cached value for `key` younger than the TTL at time `now`? -/
def freshCached (cfg : APIConfig) (cache : List (String × ℕ × ℕ)) (key : String)
    (now : ℕ) : Option ℕ :=
  if cfg.enableCaching then
    match lookupNat cache key with
    | some (v, ts) => if now - ts < cfg.cacheTimeout then some v else none
    | none => none
  else none

/-- One call reaching `fetchWithCache`, up to its suspension point. -/
def arrive (cfg : APIConfig) (st : DedupState) (key : String) (now : ℕ) :
    ArriveResult × DedupState :=
  let st0 := { st with totalRequests := st.totalRequests + 1 }
  match freshCached cfg st0.cache key now with
  | some v => (ArriveResult.cacheHit v, { st0 with cacheHits := st0.cacheHits + 1 })
  | none =>
    match (if cfg.requestDeduplication then lookupNat st0.pending key else none) with
    | some p => (ArriveResult.joined p, st0)
    | none =>
      let p := st0.nextPromise
      (ArriveResult.started p,
        { st0 with
          cacheMisses := st0.cacheMisses + 1
          producerCalls := st0.producerCalls + 1
          nextPromise := p + 1
          pending := if cfg.requestDeduplication then (key, p) :: st0.pending else st0.pending })

/-- Producer settlement for `key`: cache the value on success, drop the
in-flight marker regardless of outcome (the `finally` block). -/
def settle (cfg : APIConfig) (st : DedupState) (key : String) (now : ℕ)
    (outcome : Option ℕ) : DedupState :=
  let st1 := match outcome with
    | some v =>
      if cfg.enableCaching then { st with cache := (key, v, now) :: st.cache } else st
    | none => st
  { st1 with pending := st1.pending.filter (fun kv => kv.1 ≠ key) }

/-! ## Projection windows (`getExpectedStats`, `getLast4WeeksData`) -/

/-- Week selection of `DataService.getExpectedStats`: an explicit
non-empty week list is used as given; otherwise the fixed list
`[11, 12, 13, 14]`. -/
def historicalWeeks (weeks : List ℤ) : List ℤ :=
  if 0 < weeks.length then weeks else [11, 12, 13, 14]

/-- Week selection of `WeeklyEstimateService.getLast4WeeksData`: for
`i = 1..4` keep `currentWeek - i` when positive and present in the
week-metadata map. -/
def last4Weeks (currentWeek : ℤ) (hasMeta : ℤ → Bool) : List ℤ :=
  (List.range 4).foldl
    (fun acc i =>
      let w := currentWeek - ((i : ℤ) + 1)
      if 0 < w ∧ hasMeta w then acc ++ [w] else acc) []

/-- `DataService.calculateMedian`. -/
def calculateMedian (values : List ℚ) : ℚ :=
  if values.length = 0 then 0
  else
    let sorted := values.mergeSort (fun a b => a ≤ b)
    let middle := sorted.length / 2
    if sorted.length % 2 = 0 then
      ((sorted.getD (middle - 1) 0) + sorted.getD middle 0) / 2
    else sorted.getD middle 0

/-! ## Specification-level views used by the theorems -/

/-- The stats block a match contributes to weekly totals (resolved and
confidence at least 0.5), if any. -/
def contribStats (m : PlayerMatch) : Option StatsPair :=
  match m.mlbPlayer with
  | some p => if (0.5 : ℚ) ≤ m.confidence then p.stats else none
  | none => none

def contribPitch (m : PlayerMatch) : Option RawPitching :=
  (contribStats m).bind StatsPair.pitching

def contribBat (m : PlayerMatch) : Option RawBatting :=
  (contribStats m).bind StatsPair.batting

def erOf (m : PlayerMatch) : ℚ :=
  match contribPitch m with
  | some r => r.earnedRuns
  | none => 0

def ipOf (m : PlayerMatch) : ℚ :=
  match contribPitch m with
  | some r => r.inningsPitched
  | none => 0

def whipNumOf (m : PlayerMatch) : ℚ :=
  match contribPitch m with
  | some r => r.hits + r.baseOnBalls
  | none => 0

def abOf (m : PlayerMatch) : ℚ :=
  match contribBat m with
  | some r => r.atBats
  | none => 0

def hOf (m : PlayerMatch) : ℚ :=
  match contribBat m with
  | some r => r.hits
  | none => 0

/-- Summed earned runs over all contributing appearances of a week. -/
def sumER (ms : List PlayerMatch) : ℚ := (ms.map erOf).sum

def sumIP (ms : List PlayerMatch) : ℚ := (ms.map ipOf).sum

def sumWhipNum (ms : List PlayerMatch) : ℚ := (ms.map whipNumOf).sum

def sumAB (ms : List PlayerMatch) : ℚ := (ms.map abOf).sum

def sumH (ms : List PlayerMatch) : ℚ := (ms.map hOf).sum

/-- All matches the weekly engine aggregates over, across the days of
the week. -/
def weekMatches (fz : List MLBPlayer → String → List (MLBPlayer × ℚ))
    (cmp : String → String → ℚ)
    (days : List (List RosterEntry × List MLBPlayer)) : List PlayerMatch :=
  (days.map (fun d => dayMatches fz cmp d.1 d.2)).flatten

/-! ## Concrete inputs for witnesses and counterexamples -/

/-- A fuzzy search returning no results (Fuse may return an empty list). -/
def fzNone : List MLBPlayer → String → List (MLBPlayer × ℚ) := fun _ _ => []

def cmpZero : String → String → ℚ := fun _ _ => 0

/-- Scenario A roster row: a starting pitcher, active. -/
def scenEntry : RosterEntry :=
  { playerId := 10, fullName := some "Ace Pitcher", name := none,
    teamAbbrev := some "NYY", teamAlt := none, teamId := none,
    position := none, lineupSlotId := 13, status := "ACTIVE" }

/-- Scenario A candidate, day one: IP = 5, ER = 2. -/
def scenCand1 : MLBPlayer :=
  { id := 77, fullName := "Ace Pitcher",
    team := { name := "New York Yankees", abbreviation := "NYY" },
    position := none,
    stats := some { batting := none, pitching := some ⟨0, 0, 0, 5, 2, 0, 0⟩ } }

/-- Scenario A candidate, day two: IP = 4, ER = 1. -/
def scenCand2 : MLBPlayer :=
  { scenCand1 with
    stats := some { batting := none, pitching := some ⟨0, 0, 0, 4, 1, 0, 0⟩ } }

def scenDays : List (List RosterEntry × List MLBPlayer) :=
  [([scenEntry], [scenCand1]), ([scenEntry], [scenCand2])]

/-- Scenario A through the snapshot path: the two days' finalized day
maps (daily ERA stored as 3.60 and 2.25) and the roster snapshot. -/
def scenSnapDays : List (DayMap × List ℕ) :=
  [(dayMapFinal "2025-07-07" [{ home := [⟨77, none, some ⟨0, 0, 0, 5, 2, 0, 0⟩⟩], away := [] }], [77]),
   (dayMapFinal "2025-07-08" [{ home := [⟨77, none, some ⟨0, 0, 0, 4, 1, 0, 0⟩⟩], away := [] }], [77])]

/-- C5 counterexample: a fuzzy search hit whose combined confidence is
0.65 — above the code's 0.5 floor, below the claimed 0.7 one. -/
def lowConfEntry : RosterEntry :=
  { playerId := 20, fullName := some "Aaron Judge", name := none,
    teamAbbrev := some "NYY", teamAlt := none, teamId := none,
    position := none, lineupSlotId := 7, status := "ACTIVE" }

def lowConfCand : MLBPlayer :=
  { id := 42, fullName := "Aron Judge",
    team := { name := "New York Yankees", abbreviation := "NYY" },
    position := none,
    stats := some { batting := some ⟨1, 0, 0, 0, 0, 0⟩, pitching := none } }

/-- Fuse returning the candidate with the worst admissible score (so the
name similarity comes entirely from `compareTwoStrings`). -/
def fzLow : List MLBPlayer → String → List (MLBPlayer × ℚ) :=
  fun pool _ => pool.map (fun m => (m, 1))

def cmpHalf : String → String → ℚ := fun _ _ => 1 / 2

/-- C8 counterexample entry and candidates: two candidates share the
entry's normalized name; the first has a differing known team, the
second a matching one. -/
def c8Entry : ESPNPlayer :=
  { playerId := 30, fullName := "John Smith", teamAbbrev := some "NYY",
    position := none, lineupSlotId := 0 }

def c8CandWrongTeam : MLBPlayer :=
  { id := 51, fullName := "John Smith",
    team := { name := "Boston Red Sox", abbreviation := "BOS" },
    position := none, stats := none }

def c8CandRightTeam : MLBPlayer :=
  { id := 52, fullName := "John Smith",
    team := { name := "New York Yankees", abbreviation := "NYY" },
    position := none, stats := none }

/-- A bench roster row (slot 16) used by the C6 witness. -/
def benchEntry : RosterEntry :=
  { playerId := 60, fullName := some "Bench Bat", name := none,
    teamAbbrev := some "BOS", teamAlt := none, teamId := none,
    position := none, lineupSlotId := 16, status := "ACTIVE" }

/-- Distinctness of resolved record ids between two output entries. -/
def matchedIdNe (a b : PlayerMatch) : Prop :=
  ∀ p q, a.mlbPlayer = some p → b.mlbPlayer = some q → p.id ≠ q.id

/-- A game feed whose one pitcher recorded earned runs and baserunners
but zero innings pitched (and no at-bats): every derived rate divides by
zero. -/
def zeroGames : List Game := [{ home := [⟨77, none, some ⟨0, 0, 0, 0, 2, 1, 1⟩⟩], away := [] }]

/-- A resolved match of confidence 0.4, for the C5 amended witness. -/
def lowMatch : PlayerMatch :=
  { espnPlayer := c8Entry, mlbPlayer := some lowConfCand,
    confidence := 2 / 5, matchReason := "Fuzzy name match", warnings := [] }

/-! ## Shared helper lemmas -/

theorem foldl_preserves {α β : Type} (P : α → Prop) (step : α → β → α)
    (l : List β) (init : α) (hstep : ∀ b x, x ∈ l → P b → P (step b x))
    (hinit : P init) : P (l.foldl step init) := by
  induction l generalizing init with
  | nil => exact hinit
  | cons x xs ih =>
    exact ih (step init x)
      (fun b y hy hb => hstep b y (List.mem_cons_of_mem x hy) hb)
      (hstep init x (List.mem_cons_self x xs) hinit)

theorem headI_mem_of_ne_nil {α : Type} [Inhabited α] {l : List α}
    (h : l ≠ []) : l.headI ∈ l := by
  cases l with
  | nil => exact absurd rfl h
  | cons a t => simp

theorem matchPlayersAux_length (fz : List MLBPlayer → String → List (MLBPlayer × ℚ))
    (cmp : String → String → ℚ) (pool : List MLBPlayer) :
    ∀ (es : List ESPNPlayer) (used : List ℕ),
      (matchPlayersAux fz cmp pool es used).length = es.length := by
  intro es
  induction es with
  | nil => intro used; rfl
  | cons e rest ih => intro used; simp [matchPlayersAux, ih]

/-- Strategy 1 either keeps the current best or resolves to the scanned
candidate, which it first checked against the claimed set. -/
theorem strat1Step_resolved (e : ESPNPlayer) (nName espnTeam : String)
    (used : List ℕ) (best : PlayerMatch) (m : MLBPlayer) :
    ∀ p, (strat1Step e nName espnTeam used best m).mlbPlayer = some p →
      best.mlbPlayer = some p ∨ (p = m ∧ m.id ∉ used) := by
  intro p hp
  simp only [strat1Step] at hp
  by_cases h1 : m.id ∈ used
  · rw [if_pos h1] at hp; exact Or.inl hp
  · rw [if_neg h1] at hp
    by_cases h2 : normalizeName m.fullName = nName
    · rw [if_pos h2] at hp
      split_ifs at hp
      all_goals first
        | (exact Or.inl hp)
        | (dsimp only at hp; exact Or.inr ⟨(Option.some.inj hp).symm, h1⟩)
    · rw [if_neg h2] at hp; exact Or.inl hp

/-- Strategy 2 likewise skips candidates whose id is already claimed. -/
theorem strat2Step_resolved (cmp : String → String → ℚ) (e : ESPNPlayer)
    (nName espnTeam : String) (used : List ℕ) (best : PlayerMatch)
    (r : MLBPlayer × ℚ) :
    ∀ p, (strat2Step cmp e nName espnTeam used best r).mlbPlayer = some p →
      best.mlbPlayer = some p ∨ (p = r.1 ∧ r.1.id ∉ used) := by
  intro p hp
  simp only [strat2Step] at hp
  by_cases h1 : r.1.id ∈ used
  · rw [if_pos h1] at hp; exact Or.inl hp
  · rw [if_neg h1] at hp
    split_ifs at hp
    all_goals first
      | (exact Or.inl hp)
      | (dsimp only at hp; exact Or.inr ⟨(Option.some.inj hp).symm, h1⟩)

theorem strat1Step_not_used (e : ESPNPlayer) (nName espnTeam : String)
    (used : List ℕ) (best : PlayerMatch) (m : MLBPlayer)
    (hbest : ∀ p, best.mlbPlayer = some p → p.id ∉ used) :
    ∀ p, (strat1Step e nName espnTeam used best m).mlbPlayer = some p → p.id ∉ used := by
  intro p hp
  rcases strat1Step_resolved e nName espnTeam used best m p hp with h | ⟨rfl, h⟩
  · exact hbest p h
  · exact h

theorem strat2Step_not_used (cmp : String → String → ℚ) (e : ESPNPlayer)
    (nName espnTeam : String) (used : List ℕ) (best : PlayerMatch)
    (r : MLBPlayer × ℚ)
    (hbest : ∀ p, best.mlbPlayer = some p → p.id ∉ used) :
    ∀ p, (strat2Step cmp e nName espnTeam used best r).mlbPlayer = some p → p.id ∉ used := by
  intro p hp
  rcases strat2Step_resolved cmp e nName espnTeam used best r p hp with h | ⟨rfl, h⟩
  · exact hbest p h
  · exact h

theorem matchOne_not_used (fz : List MLBPlayer → String → List (MLBPlayer × ℚ))
    (cmp : String → String → ℚ) (pool : List MLBPlayer) (used : List ℕ)
    (e : ESPNPlayer) :
    ∀ p, (matchOne fz cmp pool used e).mlbPlayer = some p → p.id ∉ used := by
  simp only [matchOne]
  have h1 : ∀ p, (pool.foldl
      (strat1Step e (normalizeName e.fullName) (normalizeTeam ((e.teamAbbrev).getD "")) used)
      (noMatch e)).mlbPlayer = some p → p.id ∉ used := by
    refine foldl_preserves (fun (b : PlayerMatch) => ∀ p : MLBPlayer, b.mlbPlayer = some p → p.id ∉ used) _ _ _ ?_ ?_
    · intro b x _ hb
      exact strat1Step_not_used _ _ _ _ _ _ hb
    · intro p hp; simp [noMatch] at hp
  split_ifs with hconf
  · refine foldl_preserves (fun (b : PlayerMatch) => ∀ p : MLBPlayer, b.mlbPlayer = some p → p.id ∉ used) _ _ _ ?_ ?_
    · intro b x _ hb
      exact strat2Step_not_used _ _ _ _ _ _ _ hb
    · exact h1
  · exact h1

theorem matchPlayersAux_not_used (fz : List MLBPlayer → String → List (MLBPlayer × ℚ))
    (cmp : String → String → ℚ) (pool : List MLBPlayer) :
    ∀ (es : List ESPNPlayer) (used : List ℕ),
      ∀ pm ∈ matchPlayersAux fz cmp pool es used,
        ∀ p, pm.mlbPlayer = some p → p.id ∉ used := by
  intro es
  induction es with
  | nil => intro used pm hpm; simp [matchPlayersAux] at hpm
  | cons e rest ih =>
    intro used pm hpm p hp
    simp only [matchPlayersAux, List.mem_cons] at hpm
    rcases hpm with rfl | hpm
    · exact matchOne_not_used fz cmp pool used e p hp
    · have hsub : used ⊆ (match (matchOne fz cmp pool used e).mlbPlayer with
        | some m => m.id :: used
        | none => used) := by
        cases (matchOne fz cmp pool used e).mlbPlayer with
        | none => exact fun a ha => ha
        | some m => exact fun a ha => List.mem_cons_of_mem _ ha
      intro hmem
      exact ih _ pm hpm p hp (hsub hmem)

theorem matchPlayersAux_pairwise (fz : List MLBPlayer → String → List (MLBPlayer × ℚ))
    (cmp : String → String → ℚ) (pool : List MLBPlayer) :
    ∀ (es : List ESPNPlayer) (used : List ℕ),
      (matchPlayersAux fz cmp pool es used).Pairwise matchedIdNe := by
  intro es
  induction es with
  | nil => intro used; simp [matchPlayersAux]
  | cons e rest ih =>
    intro used
    simp only [matchPlayersAux]
    refine List.Pairwise.cons ?_ (ih _)
    intro pm hpm p q hp hq
    have hq2 := matchPlayersAux_not_used fz cmp pool rest _ pm hpm q hq
    cases hbest : (matchOne fz cmp pool used e).mlbPlayer with
    | none => rw [hbest] at hp; exact absurd hp (by simp)
    | some m =>
      rw [hbest] at hp
      obtain rfl : m = p := by injection hp
      rw [hbest] at hq2
      intro he
      exact hq2 (by rw [← he]; exact List.mem_cons_self _ _)

/-- C2: within one `matchPlayers` call, no two returned entries resolve
to statistics-provider records with the same player id: a record, once
claimed, is skipped by both matching strategies for the rest of the
call. -/
theorem matchPlayers_injective_on_ids
    (fz : List MLBPlayer → String → List (MLBPlayer × ℚ))
    (cmp : String → String → ℚ) (espnPlayers : List ESPNPlayer)
    (mlbPlayers : List MLBPlayer) :
    (matchPlayers fz cmp espnPlayers mlbPlayers).Pairwise matchedIdNe :=
  matchPlayersAux_pairwise fz cmp mlbPlayers espnPlayers []

/-! ## Confidence bounds (towards C4) -/

/-- Strategy 1 either keeps the best or assigns one of the three exact
confidence values 1.0, 0.7, 0.9. -/
theorem strat1Step_confidence (e : ESPNPlayer) (nName espnTeam : String)
    (used : List ℕ) (best : PlayerMatch) (m : MLBPlayer) :
    (strat1Step e nName espnTeam used best m).confidence = best.confidence ∨
    (strat1Step e nName espnTeam used best m).confidence = 0.9 + 0.1 ∨
    (strat1Step e nName espnTeam used best m).confidence = 0.9 - 0.2 ∨
    (strat1Step e nName espnTeam used best m).confidence = 0.9 := by
  simp only [strat1Step]
  split_ifs <;> simp

/-- With a nonnegative fuzzy score and a string similarity at most 1,
the fuzzy confidence expression never exceeds 1. -/
theorem fuzzyConfidence_le_one (cmp : String → String → ℚ) (e : ESPNPlayer)
    (nName espnTeam : String) (r : MLBPlayer × ℚ)
    (hs : 0 ≤ r.2) (hcmp : ∀ a b, cmp a b ≤ 1) :
    fuzzyConfidence cmp e nName espnTeam r ≤ 1 := by
  have hns : (1 - r.2) ⊔ cmp nName (normalizeName r.1.fullName) ≤ 1 :=
    max_le (by linarith) (hcmp _ _)
  simp only [fuzzyConfidence]
  split_ifs <;> linarith [hns]

/-- Strategy 2 either keeps the best or assigns a confidence that is
above 0.5 and, when the fuzzy score is nonnegative and the string
similarity at most 1, at most 1. -/
theorem strat2Step_confidence (cmp : String → String → ℚ) (e : ESPNPlayer)
    (nName espnTeam : String) (used : List ℕ) (best : PlayerMatch)
    (r : MLBPlayer × ℚ) (hs : 0 ≤ r.2) (hcmp : ∀ a b, cmp a b ≤ 1) :
    (strat2Step cmp e nName espnTeam used best r).confidence = best.confidence ∨
    ((0.5 : ℚ) < (strat2Step cmp e nName espnTeam used best r).confidence ∧
      (strat2Step cmp e nName espnTeam used best r).confidence ≤ 1) := by
  simp only [strat2Step]
  by_cases h1 : r.1.id ∈ used
  · rw [if_pos h1]; exact Or.inl rfl
  · rw [if_neg h1]
    by_cases hacc : best.confidence < fuzzyConfidence cmp e nName espnTeam r ∧
        (0.5 : ℚ) < fuzzyConfidence cmp e nName espnTeam r
    · rw [if_pos hacc]
      exact Or.inr ⟨hacc.2, fuzzyConfidence_le_one cmp e nName espnTeam r hs hcmp⟩
    · rw [if_neg hacc]; exact Or.inl rfl

theorem confidence_bounds_inv (fz : List MLBPlayer → String → List (MLBPlayer × ℚ))
    (cmp : String → String → ℚ) (pool : List MLBPlayer) (used : List ℕ)
    (e : ESPNPlayer)
    (hfz : ∀ q x s, (x, s) ∈ fz pool q → 0 ≤ s)
    (hcmp : ∀ a b, cmp a b ≤ 1) :
    0 ≤ (matchOne fz cmp pool used e).confidence ∧
      (matchOne fz cmp pool used e).confidence ≤ 1 := by
  simp only [matchOne]
  have h1 : 0 ≤ (pool.foldl
      (strat1Step e (normalizeName e.fullName) (normalizeTeam ((e.teamAbbrev).getD "")) used)
      (noMatch e)).confidence ∧
      (pool.foldl
      (strat1Step e (normalizeName e.fullName) (normalizeTeam ((e.teamAbbrev).getD "")) used)
      (noMatch e)).confidence ≤ 1 := by
    refine foldl_preserves
      (fun (b : PlayerMatch) => 0 ≤ b.confidence ∧ b.confidence ≤ 1) _ _ _ ?_ ?_
    · intro b x _ hb
      rcases strat1Step_confidence e _ _ used b x with h | h | h | h <;>
        rw [h] <;> first | exact hb | norm_num
    · simp [noMatch]
  split_ifs with hconf
  · refine foldl_preserves
      (fun (b : PlayerMatch) => 0 ≤ b.confidence ∧ b.confidence ≤ 1) _ _ _ ?_ ?_
    · intro b x hx hb
      have hmem : x ∈ fz pool (normalizeName e.fullName) := List.mem_of_mem_take hx
      have hs : 0 ≤ x.2 := hfz _ x.1 x.2 (by rwa [Prod.mk.eta])
      rcases strat2Step_confidence cmp e _ _ used b x hs hcmp with h | h
      · rw [h]; exact hb
      · exact ⟨by linarith [h.1], h.2⟩
    · exact h1
  · exact h1

theorem matchPlayersAux_confidence (fz : List MLBPlayer → String → List (MLBPlayer × ℚ))
    (cmp : String → String → ℚ) (pool : List MLBPlayer)
    (hfz : ∀ q x s, (x, s) ∈ fz pool q → 0 ≤ s)
    (hcmp : ∀ a b, cmp a b ≤ 1) :
    ∀ (es : List ESPNPlayer) (used : List ℕ),
      ∀ pm ∈ matchPlayersAux fz cmp pool es used,
        0 ≤ pm.confidence ∧ pm.confidence ≤ 1 := by
  intro es
  induction es with
  | nil => intro used pm hpm; simp [matchPlayersAux] at hpm
  | cons e rest ih =>
    intro used pm hpm
    simp only [matchPlayersAux, List.mem_cons] at hpm
    rcases hpm with rfl | hpm
    · exact confidence_bounds_inv fz cmp pool used e hfz hcmp
    · exact ih _ pm hpm

/-! ## Component additivity of the weekly accumulator (towards C1) -/

theorem accumMatch_components (acc : WeekAccum) (m : PlayerMatch) :
    (accumMatch acc m).eraER = acc.eraER + erOf m ∧
    (accumMatch acc m).eraIP = acc.eraIP + ipOf m ∧
    (accumMatch acc m).whipNum = acc.whipNum + whipNumOf m ∧
    (accumMatch acc m).whipIP = acc.whipIP + ipOf m ∧
    (accumMatch acc m).abTotal = acc.abTotal + abOf m ∧
    (accumMatch acc m).hTotal = acc.hTotal + hOf m := by
  simp only [accumMatch, erOf, ipOf, whipNumOf, abOf, hOf, contribPitch, contribBat,
    contribStats]
  cases hm : m.mlbPlayer with
  | none => simp [hm]
  | some p =>
    by_cases hc : (0.5 : ℚ) ≤ m.confidence
    · cases hs : p.stats with
      | none => simp [hm, hc, hs]
      | some st =>
        cases hb : st.batting <;> cases hp : st.pitching <;>
          simp [hm, hc, hs, hb, hp]
    · simp [hm, hc]

theorem foldl_accumMatch_components (ms : List PlayerMatch) (acc : WeekAccum) :
    (ms.foldl accumMatch acc).eraER = acc.eraER + sumER ms ∧
    (ms.foldl accumMatch acc).eraIP = acc.eraIP + sumIP ms ∧
    (ms.foldl accumMatch acc).whipNum = acc.whipNum + sumWhipNum ms ∧
    (ms.foldl accumMatch acc).whipIP = acc.whipIP + sumIP ms ∧
    (ms.foldl accumMatch acc).abTotal = acc.abTotal + sumAB ms ∧
    (ms.foldl accumMatch acc).hTotal = acc.hTotal + sumH ms := by
  induction ms generalizing acc with
  | nil => simp [sumER, sumIP, sumWhipNum, sumAB, sumH]
  | cons m rest ih =>
    obtain ⟨h1, h2, h3, h4, h5, h6⟩ := accumMatch_components acc m
    obtain ⟨g1, g2, g3, g4, g5, g6⟩ := ih (accumMatch acc m)
    simp only [List.foldl_cons, sumER, sumIP, sumWhipNum, sumAB, sumH,
      List.map_cons, List.sum_cons] at *
    exact ⟨by rw [g1, h1]; ring, by rw [g2, h2]; ring, by rw [g3, h3]; ring,
      by rw [g4, h4]; ring, by rw [g5, h5]; ring, by rw [g6, h6]; ring⟩

/-- The weekly accumulator over the days equals the fold of the per-match
step over the concatenated match lists of all days. -/
theorem weekAccum_eq_foldl (fz : List MLBPlayer → String → List (MLBPlayer × ℚ))
    (cmp : String → String → ℚ)
    (days : List (List RosterEntry × List MLBPlayer)) :
    weekAccum fz cmp days = (weekMatches fz cmp days).foldl accumMatch initAccum := by
  suffices h : ∀ (ds : List (List RosterEntry × List MLBPlayer)) (acc : WeekAccum),
      ds.foldl (processDay fz cmp) acc =
        ((ds.map (fun d => dayMatches fz cmp d.1 d.2)).flatten).foldl accumMatch acc by
    exact h days initAccum
  intro ds
  induction ds with
  | nil => intro acc; rfl
  | cons d rest ih =>
    intro acc
    simp only [List.foldl_cons, List.map_cons, List.flatten_cons, List.foldl_append]
    exact ih _

theorem finalizeWeek_era (acc : WeekAccum) :
    (finalizeWeek acc).era = if acc.eraIP = 0 then 0 else acc.eraER * 9 / acc.eraIP := rfl

theorem finalizeWeek_whip (acc : WeekAccum) :
    (finalizeWeek acc).whip = if acc.whipIP = 0 then 0 else acc.whipNum / acc.whipIP := rfl

theorem finalizeWeek_avg (acc : WeekAccum) :
    (finalizeWeek acc).battingAverage =
      if acc.abTotal = 0 then 0 else acc.hTotal / acc.abTotal := rfl

/-! ## Claim theorems -/

/-- C4: every confidence produced by one `matchPlayers` call lies in
[0, 1]: unmatched entries keep confidence 0, exact-name matches score
0.7, 0.9 or 1.0, and fuzzy matches score at most 1 and are accepted only
above the 0.5 floor — given that the fuzzy scores and string-similarity
scores lie in [0, 1]. -/
theorem matchPlayers_confidence_in_unit_interval
    (fz : List MLBPlayer → String → List (MLBPlayer × ℚ))
    (cmp : String → String → ℚ) (espnPlayers : List ESPNPlayer)
    (mlbPlayers : List MLBPlayer)
    (hfz : ∀ q x s, (x, s) ∈ fz mlbPlayers q → 0 ≤ s ∧ s ≤ 1)
    (hcmp : ∀ a b, 0 ≤ cmp a b ∧ cmp a b ≤ 1) :
    ∀ pm ∈ matchPlayers fz cmp espnPlayers mlbPlayers,
      0 ≤ pm.confidence ∧ pm.confidence ≤ 1 := by
  intro pm hpm
  exact matchPlayersAux_confidence fz cmp mlbPlayers
    (fun q x s h => (hfz q x s h).1) (fun a b => (hcmp a b).2) espnPlayers [] pm hpm

/-- C4 witness: the bounds at a concrete call. -/
theorem matchPlayers_confidence_witness :
    0 ≤ ((matchPlayers fzNone cmpZero [c8Entry] [c8CandWrongTeam]).headI).confidence ∧
    ((matchPlayers fzNone cmpZero [c8Entry] [c8CandWrongTeam]).headI).confidence ≤ 1 := by
  have hne : matchPlayers fzNone cmpZero [c8Entry] [c8CandWrongTeam] ≠ [] := by
    intro h
    have hl := matchPlayersAux_length fzNone cmpZero [c8CandWrongTeam] [c8Entry] []
    rw [show matchPlayersAux fzNone cmpZero [c8CandWrongTeam] [c8Entry] [] =
      matchPlayers fzNone cmpZero [c8Entry] [c8CandWrongTeam] from rfl, h] at hl
    simp at hl
  exact matchPlayers_confidence_in_unit_interval fzNone cmpZero [c8Entry] [c8CandWrongTeam]
    (by intro q x s h; simp [fzNone] at h)
    (by intro a b; constructor <;> simp [cmpZero])
    _ (headI_mem_of_ne_nil hne)

/-- C3: a zero accumulated denominator yields a derived rate of exactly
0 — daily (`getDailyStatsMap` finalization: AVG on 0 AB, ERA/WHIP on
0 IP) and weekly (`getWeeklyStats` finalization).  In this rational
embedding the derivations are total, so no NaN or infinity can arise. -/
theorem zero_denominator_rates_are_zero :
    (∀ (date : String) (games : List Game), ∀ kv ∈ dayMapFinal date games,
      ((kv.2).hitting.AB = 0 → (kv.2).hitting.AVG = 0) ∧
      ((kv.2).pitching.IP = 0 → (kv.2).pitching.ERA = 0 ∧ (kv.2).pitching.WHIP = 0)) ∧
    (∀ acc : WeekAccum,
      (acc.abTotal = 0 → (finalizeWeek acc).battingAverage = 0) ∧
      (acc.eraIP = 0 → (finalizeWeek acc).era = 0) ∧
      (acc.whipIP = 0 → (finalizeWeek acc).whip = 0)) := by
  constructor
  · intro date games kv hkv
    simp only [dayMapFinal, List.mem_map] at hkv
    obtain ⟨kv0, _, rfl⟩ := hkv
    refine ⟨fun hab => ?_, fun hip => ⟨?_, ?_⟩⟩
    · have hab2 : kv0.2.hitting.AB = 0 := hab
      simp [finalizeDaily, hab2]
    · have hip2 : kv0.2.pitching.IP = 0 := hip
      simp [finalizeDaily, hip2]
    · have hip2 : kv0.2.pitching.IP = 0 := hip
      simp [finalizeDaily, hip2]
  · intro acc
    refine ⟨fun h => ?_, fun h => ?_, fun h => ?_⟩ <;>
      simp [finalizeWeek_era, finalizeWeek_whip, finalizeWeek_avg, h]

/-- C3 witness: a pitcher with ER = 2 and two baserunners across 0 IP
(and 0 AB) ends the day with AVG, ERA and WHIP all exactly 0, and the
empty weekly accumulator derives batting average 0. -/
theorem zero_denominator_witness :
    (77, blankDaily 77 "2025-07-04") ∈ dayMapFinal "2025-07-04" zeroGames ∧
    (blankDaily 77 "2025-07-04").hitting.AVG = 0 ∧
    (blankDaily 77 "2025-07-04").pitching.ERA = 0 ∧
    (blankDaily 77 "2025-07-04").pitching.WHIP = 0 ∧
    (finalizeWeek initAccum).battingAverage = 0 := by
  have hmap : dayMapFinal "2025-07-04" zeroGames = [(77, blankDaily 77 "2025-07-04")] := by
    norm_num [dayMapFinal, dayMapRaw, ingestGame, updDayMap, zeroGames, accumAppearance,
      blankDaily, finalizeDaily, zeroBatting]
  have hmem : (77, blankDaily 77 "2025-07-04") ∈ dayMapFinal "2025-07-04" zeroGames := by
    rw [hmap]; exact List.mem_singleton.mpr rfl
  have h := zero_denominator_rates_are_zero.1 "2025-07-04" zeroGames _ hmem
  have h2 := (zero_denominator_rates_are_zero.2 initAccum).1 rfl
  exact ⟨hmem, h.1 rfl, (h.2 rfl).1, (h.2 rfl).2, h2⟩

/-- C1: weekly rates are derived once from the accumulated components
over all contributing appearances — ERA as (summed ER)·9/(summed IP),
WHIP as summed (H+BB)/(summed IP), AVG as summed H/summed AB — never by
averaging per-day rate values.  In particular a pitcher with IP = 5,
ER = 2 one day and IP = 4, ER = 1 the next yields weekly ERA 3.00
through the full `getWeeklyStats` pipeline, which differs from the mean
of the two daily ERAs; the snapshot path (`computeWeekStats`), which
back-derives components from the stored daily rates, yields 3.00 on the
same scenario as well. -/
theorem weekly_rates_from_summed_components :
    (∀ (fz : List MLBPlayer → String → List (MLBPlayer × ℚ))
        (cmp : String → String → ℚ) (days : List (List RosterEntry × List MLBPlayer)),
      (sumIP (weekMatches fz cmp days) ≠ 0 →
        (getWeeklyStatsAgg fz cmp days).era =
          sumER (weekMatches fz cmp days) * 9 / sumIP (weekMatches fz cmp days) ∧
        (getWeeklyStatsAgg fz cmp days).whip =
          sumWhipNum (weekMatches fz cmp days) / sumIP (weekMatches fz cmp days)) ∧
      (sumAB (weekMatches fz cmp days) ≠ 0 →
        (getWeeklyStatsAgg fz cmp days).battingAverage =
          sumH (weekMatches fz cmp days) / sumAB (weekMatches fz cmp days))) ∧
    (getWeeklyStatsAgg fzNone cmpZero scenDays).era = 3 ∧
    ((2 * 9 / 5 + 1 * 9 / 4 : ℚ) / 2 ≠ 3) ∧
    (computeWeekStats scenSnapDays).era = 3 := by
  refine ⟨?_, ?_, by norm_num, ?_⟩
  · intro fz cmp days
    obtain ⟨h1, h2, h3, h4, h5, h6⟩ :=
      foldl_accumMatch_components (weekMatches fz cmp days) initAccum
    have e1 : (weekAccum fz cmp days).eraER = sumER (weekMatches fz cmp days) := by
      rw [weekAccum_eq_foldl, h1]; simp [initAccum]
    have e2 : (weekAccum fz cmp days).eraIP = sumIP (weekMatches fz cmp days) := by
      rw [weekAccum_eq_foldl, h2]; simp [initAccum]
    have e3 : (weekAccum fz cmp days).whipNum = sumWhipNum (weekMatches fz cmp days) := by
      rw [weekAccum_eq_foldl, h3]; simp [initAccum]
    have e4 : (weekAccum fz cmp days).whipIP = sumIP (weekMatches fz cmp days) := by
      rw [weekAccum_eq_foldl, h4]; simp [initAccum]
    have e5 : (weekAccum fz cmp days).abTotal = sumAB (weekMatches fz cmp days) := by
      rw [weekAccum_eq_foldl, h5]; simp [initAccum]
    have e6 : (weekAccum fz cmp days).hTotal = sumH (weekMatches fz cmp days) := by
      rw [weekAccum_eq_foldl, h6]; simp [initAccum]
    refine ⟨fun hip => ⟨?_, ?_⟩, fun hab => ?_⟩
    · simp only [getWeeklyStatsAgg, finalizeWeek_era, e1, e2]; rw [if_neg hip]
    · simp only [getWeeklyStatsAgg, finalizeWeek_whip, e3, e4]; rw [if_neg hip]
    · simp only [getWeeklyStatsAgg, finalizeWeek_avg, e5, e6]; rw [if_neg hab]
  · have ha : normalizeName scenCand1.fullName = "ace pitcher" := by decide
    have ha2 : normalizeName scenCand2.fullName = "ace pitcher" := by decide
    have hb : normalizeName (toESPNPlayer scenEntry).fullName = "ace pitcher" := by decide
    have ht : normalizeTeam (((toESPNPlayer scenEntry).teamAbbrev).getD "") = "NYY" := by decide
    have hx1 : extractTeamAbbrev scenCand1.team = "NYY" := by decide
    have hx2 : extractTeamAbbrev scenCand2.team = "NYY" := by decide
    have hstar : isStarter scenEntry = true := by decide
    have hp1 : isPositionMatch (((toESPNPlayer scenEntry).position).getD "")
        (((scenCand1.position).map MLBPosition.code).getD "") = true := by decide
    have hp2 : isPositionMatch (((toESPNPlayer scenEntry).position).getD "")
        (((scenCand2.position).map MLBPosition.code).getD "") = true := by decide
    have hm1 : dayMatches fzNone cmpZero [scenEntry] [scenCand1] =
        [⟨toESPNPlayer scenEntry, some scenCand1, 0.9 + 0.1,
          "Exact name match + team match", []⟩] := by
      norm_num [dayMatches, matchPlayers, matchPlayersAux, matchOne, strat1Step, strat2Step,
        noMatch, fzNone, cmpZero, ha, hb, ht, hx1, hstar, hp1]
    have hm2 : dayMatches fzNone cmpZero [scenEntry] [scenCand2] =
        [⟨toESPNPlayer scenEntry, some scenCand2, 0.9 + 0.1,
          "Exact name match + team match", []⟩] := by
      norm_num [dayMatches, matchPlayers, matchPlayersAux, matchOne, strat1Step, strat2Step,
        noMatch, fzNone, cmpZero, ha2, hb, ht, hx2, hstar, hp2]
    simp only [getWeeklyStatsAgg, weekAccum, scenDays, processDay, List.foldl_cons,
      List.foldl_nil, hm1, hm2]
    norm_num [accumMatch, initAccum, finalizeWeek_era, scenCand1, scenCand2]
  · have hd1 : dayMapFinal "2025-07-07" [{ home := [⟨77, none, some ⟨0, 0, 0, 5, 2, 0, 0⟩⟩], away := [] }] =
        [(77, { playerId := 77, date := "2025-07-07",
                hitting := ⟨0, 0, 0, 0, 0, 0, 0⟩,
                pitching := ⟨5, 0, 0, 0, 18/5, 0, 0⟩ })] := by
      norm_num [dayMapFinal, dayMapRaw, ingestGame, updDayMap, accumAppearance, blankDaily,
        finalizeDaily, zeroBatting, roundTo]
    have hd2 : dayMapFinal "2025-07-08" [{ home := [⟨77, none, some ⟨0, 0, 0, 4, 1, 0, 0⟩⟩], away := [] }] =
        [(77, { playerId := 77, date := "2025-07-08",
                hitting := ⟨0, 0, 0, 0, 0, 0, 0⟩,
                pitching := ⟨4, 0, 0, 0, 9/4, 0, 0⟩ })] := by
      norm_num [dayMapFinal, dayMapRaw, ingestGame, updDayMap, accumAppearance, blankDaily,
        finalizeDaily, zeroBatting, roundTo]
    simp only [scenSnapDays, computeWeekStats, hd1, hd2, List.foldl_cons, List.foldl_nil]
    norm_num [snapAccumDay, snapAccumPlayer, lookupDay, initSnapAccum, roundTo]

/-- C1 witness: the component formula applied to the scenario-A week,
whose summed innings total is nonzero. -/
theorem weekly_rates_witness :
    sumIP (weekMatches fzNone cmpZero scenDays) ≠ 0 ∧
    (getWeeklyStatsAgg fzNone cmpZero scenDays).era =
      sumER (weekMatches fzNone cmpZero scenDays) * 9 /
        sumIP (weekMatches fzNone cmpZero scenDays) := by
  have hip : sumIP (weekMatches fzNone cmpZero scenDays) ≠ 0 := by
    have ha : normalizeName scenCand1.fullName = "ace pitcher" := by decide
    have ha2 : normalizeName scenCand2.fullName = "ace pitcher" := by decide
    have hb : normalizeName (toESPNPlayer scenEntry).fullName = "ace pitcher" := by decide
    have ht : normalizeTeam (((toESPNPlayer scenEntry).teamAbbrev).getD "") = "NYY" := by decide
    have hx1 : extractTeamAbbrev scenCand1.team = "NYY" := by decide
    have hx2 : extractTeamAbbrev scenCand2.team = "NYY" := by decide
    have hstar : isStarter scenEntry = true := by decide
    have hp1 : isPositionMatch (((toESPNPlayer scenEntry).position).getD "")
        (((scenCand1.position).map MLBPosition.code).getD "") = true := by decide
    have hp2 : isPositionMatch (((toESPNPlayer scenEntry).position).getD "")
        (((scenCand2.position).map MLBPosition.code).getD "") = true := by decide
    have hm1 : dayMatches fzNone cmpZero [scenEntry] [scenCand1] =
        [⟨toESPNPlayer scenEntry, some scenCand1, 0.9 + 0.1,
          "Exact name match + team match", []⟩] := by
      norm_num [dayMatches, matchPlayers, matchPlayersAux, matchOne, strat1Step, strat2Step,
        noMatch, fzNone, cmpZero, ha, hb, ht, hx1, hstar, hp1]
    have hm2 : dayMatches fzNone cmpZero [scenEntry] [scenCand2] =
        [⟨toESPNPlayer scenEntry, some scenCand2, 0.9 + 0.1,
          "Exact name match + team match", []⟩] := by
      norm_num [dayMatches, matchPlayers, matchPlayersAux, matchOne, strat1Step, strat2Step,
        noMatch, fzNone, cmpZero, ha2, hb, ht, hx2, hstar, hp2]
    simp only [weekMatches, scenDays, List.map_cons, List.map_nil, List.flatten, hm1, hm2]
    norm_num [sumIP, ipOf, contribPitch, contribStats, scenCand1, scenCand2]
  exact ⟨hip, ((weekly_rates_from_summed_components.1 fzNone cmpZero scenDays).1 hip).1⟩

/-- C5 counterexample: the weekly engine accumulates a resolved match of
confidence 0.65 — below the claimed 0.7 floor: the match's batting run
is counted in the weekly totals (`getWeeklyStats` filters at 0.5, not
0.7). -/
theorem weekly_confidence_floor_counterexample :
    (matchPlayers fzLow cmpHalf [toESPNPlayer lowConfEntry] [lowConfCand]).headI.confidence = 13 / 20 ∧
    (13 / 20 : ℚ) < 7 / 10 ∧
    (getWeeklyStatsAgg fzLow cmpHalf [([lowConfEntry], [lowConfCand])]).runs = 1 := by
  have hnne : ¬(normalizeName lowConfCand.fullName =
      normalizeName (toESPNPlayer lowConfEntry).fullName) := by decide
  have ht : normalizeTeam (((toESPNPlayer lowConfEntry).teamAbbrev).getD "") = "NYY" := by decide
  have hx : extractTeamAbbrev lowConfCand.team = "NYY" := by decide
  have hstar : isStarter lowConfEntry = true := by decide
  have hp : isPositionMatch (((toESPNPlayer lowConfEntry).position).getD "")
      (((lowConfCand.position).map MLBPosition.code).getD "") = true := by decide
  have hm : dayMatches fzLow cmpHalf [lowConfEntry] [lowConfCand] =
      [⟨toESPNPlayer lowConfEntry, some lowConfCand, 13 / 20,
        "Fuzzy name match + team match", []⟩] := by
    norm_num [dayMatches, matchPlayers, matchPlayersAux, matchOne, strat1Step, strat2Step,
      fuzzyConfidence, noMatch, fzLow, cmpHalf, hnne, ht, hx, hstar, hp]
  refine ⟨?_, by norm_num, ?_⟩
  · have hm2 : matchPlayers fzLow cmpHalf [toESPNPlayer lowConfEntry] [lowConfCand] =
        dayMatches fzLow cmpHalf [lowConfEntry] [lowConfCand] := by
      norm_num [dayMatches, hstar]
    rw [hm2, hm]
    norm_num
  · simp only [getWeeklyStatsAgg, weekAccum, processDay, List.foldl_cons, List.foldl_nil, hm]
    norm_num [accumMatch, initAccum, finalizeWeek, lowConfCand]

/-- C5 (amended): the weekly engine accumulates a matched player's daily
statistics exactly when the match confidence is at least 0.5; matches
below 0.5 contribute nothing, so the fold equals the fold over the
0.5-filtered match list. -/
theorem weekly_confidence_floor_half :
    (∀ (acc : WeekAccum) (m : PlayerMatch), m.confidence < 0.5 → accumMatch acc m = acc) ∧
    (∀ (ms : List PlayerMatch) (acc : WeekAccum),
      ms.foldl accumMatch acc =
        (ms.filter (fun m => (0.5 : ℚ) ≤ m.confidence)).foldl accumMatch acc) := by
  have hskip : ∀ (acc : WeekAccum) (m : PlayerMatch),
      ¬((0.5 : ℚ) ≤ m.confidence) → accumMatch acc m = acc := by
    intro acc m h
    simp only [accumMatch]
    cases hm : m.mlbPlayer <;> simp [h]
  constructor
  · intro acc m h
    exact hskip acc m (not_le.mpr h)
  · intro ms
    induction ms with
    | nil => intro acc; rfl
    | cons m rest ih =>
      intro acc
      by_cases h : (0.5 : ℚ) ≤ m.confidence
      · rw [List.filter_cons_of_pos (by simpa using h), List.foldl_cons, List.foldl_cons]
        exact ih (accumMatch acc m)
      · rw [List.filter_cons_of_neg (by simpa using h), List.foldl_cons, hskip acc m h]
        exact ih acc

/-- C5 (amended) witness: a confidence-0.4 match leaves the accumulator
untouched. -/
theorem weekly_confidence_floor_witness :
    lowMatch.confidence < 0.5 ∧ accumMatch initAccum lowMatch = initAccum := by
  have h : lowMatch.confidence < 0.5 := by norm_num [lowMatch]
  exact ⟨h, weekly_confidence_floor_half.1 initAccum lowMatch h⟩

/-- C6: roster rows in the bench slot (16) or injured-list slot (17), or
without `ACTIVE` status, are dropped by the starters filter before
matching, so they contribute nothing to any accumulated weekly stat:
removing such a row from the day's roster leaves the aggregation
unchanged. -/
theorem bench_il_inactive_no_contribution
    (fz : List MLBPlayer → String → List (MLBPlayer × ℚ)) (cmp : String → String → ℚ)
    (acc : WeekAccum) (r1 r2 : List RosterEntry) (e : RosterEntry)
    (mlb : List MLBPlayer)
    (h : e.lineupSlotId = 16 ∨ e.lineupSlotId = 17 ∨ e.status ≠ "ACTIVE") :
    processDay fz cmp acc (r1 ++ e :: r2, mlb) = processDay fz cmp acc (r1 ++ r2, mlb) := by
  have hns : isStarter e = false := by
    simp only [isStarter]
    rcases h with h | h | h <;> simp [h]
  simp only [processDay, dayMatches, List.filter_append, List.filter_cons, hns]
  simp

/-- C6 witness: an active bench row (slot 16) contributes nothing. -/
theorem bench_il_inactive_witness :
    benchEntry.lineupSlotId = 16 ∧
    processDay fzNone cmpZero initAccum ([benchEntry], []) =
      processDay fzNone cmpZero initAccum ([], []) :=
  ⟨rfl, bench_il_inactive_no_contribution fzNone cmpZero initAccum [] [] benchEntry []
    (Or.inl rfl)⟩

/-- A cache without a fresh entry for `key` stays without one as time
advances (natural-number clock). -/
theorem freshCached_mono (cfg : APIConfig) (cache : List (String × ℕ × ℕ))
    (key : String) (now1 now2 : ℕ)
    (h : freshCached cfg cache key now1 = none) (hm : now1 ≤ now2) :
    freshCached cfg cache key now2 = none := by
  by_cases hc : cfg.enableCaching
  · cases hl : lookupNat cache key with
    | none => simp [freshCached, hc, hl]
    | some vt =>
      obtain ⟨v, ts⟩ := vt
      simp only [freshCached, if_pos hc, hl] at h ⊢
      by_cases h1 : now1 - ts < cfg.cacheTimeout
      · rw [if_pos h1] at h
        exact absurd h (by simp)
      · rw [if_neg (show ¬(now2 - ts < cfg.cacheTimeout) by omega)]
  · simp [freshCached, hc]

/-- C7: two calls reaching `fetchWithCache` for the same key, with no
fresh cached value and before the first producer settles, invoke the
producer exactly once: the first call starts it and registers the
promise, the second joins the same promise (hence receives the same
eventual result).  Both synchronous prefixes are atomic in the
single-threaded runtime, which `arrive` models. -/
theorem dedup_single_producer (st : DedupState) (key : String) (now1 now2 : ℕ)
    (hfresh : freshCached defaultConfig st.cache key now1 = none)
    (hpending : lookupNat st.pending key = none)
    (hmono : now1 ≤ now2) :
    (arrive defaultConfig st key now1).1 = ArriveResult.started st.nextPromise ∧
    (arrive defaultConfig ((arrive defaultConfig st key now1).2) key now2).1 =
      ArriveResult.joined st.nextPromise ∧
    ((arrive defaultConfig ((arrive defaultConfig st key now1).2) key now2).2).producerCalls =
      st.producerCalls + 1 := by
  have hfresh2 : freshCached defaultConfig st.cache key now2 = none :=
    freshCached_mono defaultConfig st.cache key now1 now2 hfresh hmono
  have hdedup : defaultConfig.requestDeduplication = true := rfl
  have h1 : arrive defaultConfig st key now1 =
      (ArriveResult.started st.nextPromise,
        { st with
          totalRequests := st.totalRequests + 1
          cacheMisses := st.cacheMisses + 1
          producerCalls := st.producerCalls + 1
          nextPromise := st.nextPromise + 1
          pending := (key, st.nextPromise) :: st.pending }) := by
    simp only [arrive, hdedup, hfresh, hpending, if_pos]
  rw [h1]
  have h2 : lookupNat ((key, st.nextPromise) :: st.pending) key = some st.nextPromise := by
    simp [lookupNat]
  simp [arrive, hdedup, hfresh2, h2]

/-- C7 witness: from the empty state, the first call starts promise 0
and the second joins it, with one producer invocation in total. -/
theorem dedup_single_producer_witness :
    (arrive defaultConfig initDedupState "weekly-stats-14" 0).1 = ArriveResult.started 0 ∧
    (arrive defaultConfig ((arrive defaultConfig initDedupState "weekly-stats-14" 0).2)
        "weekly-stats-14" 5).1 = ArriveResult.joined 0 ∧
    ((arrive defaultConfig ((arrive defaultConfig initDedupState "weekly-stats-14" 0).2)
        "weekly-stats-14" 5).2).producerCalls = 1 :=
  dedup_single_producer initDedupState "weekly-stats-14" 0 5 rfl rfl (by omega)

/-- Under a known team mismatch the fuzzy confidence cannot exceed 0.7:
at most 1·0.7 − 0.1 + 0.1. -/
theorem fuzzyConfidence_le_mismatch (cmp : String → String → ℚ) (e : ESPNPlayer)
    (nName espnTeam : String) (r : MLBPlayer × ℚ)
    (hs : 0 ≤ r.2) (hcmp : ∀ a b, cmp a b ≤ 1)
    (hne : espnTeam ≠ extractTeamAbbrev r.1.team)
    (he : espnTeam ≠ "") (hmt : extractTeamAbbrev r.1.team ≠ "") :
    fuzzyConfidence cmp e nName espnTeam r ≤ 0.9 - 0.2 := by
  have hns : (1 - r.2) ⊔ cmp nName (normalizeName r.1.fullName) ≤ 1 :=
    max_le (by linarith) (hcmp _ _)
  simp only [fuzzyConfidence]
  rw [if_neg hne, if_pos (show espnTeam ≠ "" ∧ extractTeamAbbrev r.1.team ≠ "" from ⟨he, hmt⟩)]
  split_ifs <;> linarith

/-- C8 counterexample: with a second exact-name candidate whose team
matches, the resolver returns confidence 1.0, not 0.7, although a
remaining candidate with equal normalized name and differing known team
codes exists — so the claim fails as universally stated. -/
theorem exact_team_mismatch_counterexample :
    normalizeName c8Entry.fullName = normalizeName c8CandWrongTeam.fullName ∧
    normalizeTeam ((c8Entry.teamAbbrev).getD "") ≠ "" ∧
    extractTeamAbbrev c8CandWrongTeam.team ≠ "" ∧
    normalizeTeam ((c8Entry.teamAbbrev).getD "") ≠ extractTeamAbbrev c8CandWrongTeam.team ∧
    (matchPlayers fzNone cmpZero [c8Entry] [c8CandWrongTeam, c8CandRightTeam]).headI.confidence = 1 ∧
    (matchPlayers fzNone cmpZero [c8Entry] [c8CandWrongTeam, c8CandRightTeam]).headI.confidence ≠ 0.9 - 0.2 := by
  have hn0 : normalizeName c8Entry.fullName = "john smith" := by decide
  have hn1 : normalizeName c8CandWrongTeam.fullName = "john smith" := by decide
  have hn2 : normalizeName c8CandRightTeam.fullName = "john smith" := by decide
  have ht : normalizeTeam ((c8Entry.teamAbbrev).getD "") = "NYY" := by decide
  have hx1 : extractTeamAbbrev c8CandWrongTeam.team = "BOS" := by decide
  have hx2 : extractTeamAbbrev c8CandRightTeam.team = "NYY" := by decide
  have hp1 : isPositionMatch ((c8Entry.position).getD "")
      (((c8CandWrongTeam.position).map MLBPosition.code).getD "") = true := by decide
  have hp2 : isPositionMatch ((c8Entry.position).getD "")
      (((c8CandRightTeam.position).map MLBPosition.code).getD "") = true := by decide
  have hne1 : ¬(("NYY" : String) = "BOS") := by decide
  have hne2 : ¬(("NYY" : String) = "") := by decide
  have hne3 : ¬(("BOS" : String) = "") := by decide
  have hc : (matchPlayers fzNone cmpZero [c8Entry] [c8CandWrongTeam, c8CandRightTeam]).headI.confidence = 1 := by
    norm_num [matchPlayers, matchPlayersAux, matchOne, strat1Step, strat2Step, noMatch,
      fzNone, cmpZero, hn0, hn1, hn2, ht, hx1, hx2, hp1, hp2, hne1, hne2, hne3]
  refine ⟨by rw [hn0, hn1], by rw [ht]; exact hne2, by rw [hx1]; exact hne3,
    by rw [ht, hx1]; exact hne1, hc, by rw [hc]; norm_num⟩

/-- C8 (amended): when the remaining candidate pool for the entry is a
single candidate whose normalized name equals the entry's and whose
known normalized team code differs from the entry's known code, the
returned match has confidence 0.9 − 0.2 = 0.7 and its warning list
contains the team-mismatch warning (no fuzzy candidate over the same
pool can exceed 0.7 under the team mismatch, given score bounds). -/
theorem exact_team_mismatch_single
    (fz : List MLBPlayer → String → List (MLBPlayer × ℚ))
    (cmp : String → String → ℚ) (e : ESPNPlayer) (m : MLBPlayer)
    (hname : normalizeName m.fullName = normalizeName e.fullName)
    (he : normalizeTeam ((e.teamAbbrev).getD "") ≠ "")
    (hmt : extractTeamAbbrev m.team ≠ "")
    (hne : normalizeTeam ((e.teamAbbrev).getD "") ≠ extractTeamAbbrev m.team)
    (hfz : ∀ q x s, (x, s) ∈ fz [m] q → x = m ∧ 0 ≤ s)
    (hcmp : ∀ a b, cmp a b ≤ 1) :
    (matchPlayers fz cmp [e] [m]).headI.confidence = 0.9 - 0.2 ∧
    teamMismatchWarning (normalizeTeam ((e.teamAbbrev).getD ""))
        (extractTeamAbbrev m.team) ∈ (matchPlayers fz cmp [e] [m]).headI.warnings := by
  set nName := normalizeName e.fullName with hnN
  set espnTeam := normalizeTeam ((e.teamAbbrev).getD "") with hTm
  have hb1 : List.foldl (strat1Step e nName espnTeam []) (noMatch e) [m] =
      { espnPlayer := e, mlbPlayer := some m, confidence := 0.9 - 0.2,
        matchReason := "Exact name match",
        warnings := [teamMismatchWarning espnTeam (extractTeamAbbrev m.team)] ++
          (if ¬isPositionMatch ((e.position).getD "") (((m.position).map MLBPosition.code).getD "") then
            [positionMismatchWarning ((e.position).getD "undefined")
              (((m.position).map MLBPosition.code).getD "undefined")] else []) } := by
    simp only [List.foldl_cons, List.foldl_nil, strat1Step]
    rw [if_neg (List.not_mem_nil m.id)]
    rw [if_pos hname]
    simp only [if_neg hne,
      if_pos (show espnTeam ≠ "" ∧ extractTeamAbbrev m.team ≠ "" from ⟨he, hmt⟩),
      if_pos (show ¬espnTeam = extractTeamAbbrev m.team ∧ espnTeam ≠ "" ∧
        extractTeamAbbrev m.team ≠ "" from ⟨hne, he, hmt⟩)]
    rw [if_pos (show (noMatch e).confidence < 0.9 - 0.2 by norm_num [noMatch])]
  have hlt : (List.foldl (strat1Step e nName espnTeam []) (noMatch e) [m]).confidence < 0.8 := by
    rw [hb1]; norm_num
  have hkeep : List.foldl (strat2Step cmp e nName espnTeam [])
      (List.foldl (strat1Step e nName espnTeam []) (noMatch e) [m])
      ((fz [m] nName).take 5) =
      List.foldl (strat1Step e nName espnTeam []) (noMatch e) [m] := by
    refine foldl_preserves
      (fun (b : PlayerMatch) =>
        b = List.foldl (strat1Step e nName espnTeam []) (noMatch e) [m]) _ _ _ ?_ rfl
    intro b x hx hb
    subst hb
    obtain ⟨hx1, hx2⟩ := hfz nName x.1 x.2 (List.mem_of_mem_take hx)
    simp only [strat2Step]
    rw [if_neg (List.not_mem_nil x.1.id)]
    rw [if_neg (show ¬((List.foldl (strat1Step e nName espnTeam []) (noMatch e) [m]).confidence <
        fuzzyConfidence cmp e nName espnTeam x ∧
        (0.5 : ℚ) < fuzzyConfidence cmp e nName espnTeam x) from ?_)]
    intro hacc
    have hle : fuzzyConfidence cmp e nName espnTeam x ≤ 0.9 - 0.2 :=
      fuzzyConfidence_le_mismatch cmp e nName espnTeam x hx2 hcmp
        (by rw [hx1]; exact hne) he (by rw [hx1]; exact hmt)
    rw [hb1] at hacc
    have := hacc.1
    simp only at this
    linarith
  have hone : (matchPlayers fz cmp [e] [m]).headI =
      List.foldl (strat1Step e nName espnTeam []) (noMatch e) [m] := by
    simp only [matchPlayers, matchPlayersAux, List.headI, matchOne]
    rw [if_pos hlt, hkeep]
  rw [hone, hb1]
  exact ⟨rfl, by simp⟩

/-- C8 (amended) witness: a concrete single-candidate call with equal
normalized names and differing known teams. -/
theorem exact_team_mismatch_witness :
    normalizeName c8CandWrongTeam.fullName = normalizeName c8Entry.fullName ∧
    (matchPlayers fzNone cmpZero [c8Entry] [c8CandWrongTeam]).headI.confidence = 0.9 - 0.2 ∧
    teamMismatchWarning (normalizeTeam ((c8Entry.teamAbbrev).getD ""))
        (extractTeamAbbrev c8CandWrongTeam.team) ∈
      (matchPlayers fzNone cmpZero [c8Entry] [c8CandWrongTeam]).headI.warnings := by
  have h := exact_team_mismatch_single fzNone cmpZero c8Entry c8CandWrongTeam
    (by decide) (by decide) (by decide) (by decide)
    (by intro q x s hmem; simp [fzNone] at hmem)
    (by intro a b; norm_num [cmpZero])
  exact ⟨by decide, h.1, h.2⟩

/-- C9 counterexample: invoked without explicit weeks, the team-level
projection (`getExpectedStats`) uses the fixed window [11, 12, 13, 14]
regardless of the target week; for target week 5 the up-to-4
immediately preceding weeks are [4, 3, 2, 1], so the claimed default
fails there. -/
theorem projection_default_counterexample :
    historicalWeeks [] = [11, 12, 13, 14] ∧
    last4Weeks 5 (fun _ => true) = [4, 3, 2, 1] ∧
    historicalWeeks [] ≠ last4Weeks 5 (fun _ => true) := by
  refine ⟨by norm_num [historicalWeeks], by decide, by decide⟩

/-- C9 (amended): the player-level projection (`getLast4WeeksData`)
defaults to the up-to-4 weeks immediately preceding the target week,
keeping only positive week numbers present in the week-metadata map;
the team-level projection (`getExpectedStats`) uses an explicit
non-empty week list as given and otherwise the fixed window
[11, 12, 13, 14], independent of any target week. -/
theorem projection_default_windows :
    (∀ weeks : List ℤ, 0 < weeks.length → historicalWeeks weeks = weeks) ∧
    historicalWeeks [] = [11, 12, 13, 14] ∧
    (∀ (c : ℤ) (hasMeta : ℤ → Bool),
      last4Weeks c hasMeta =
        ([c - 1, c - 2, c - 3, c - 4] : List ℤ).filter
          (fun w => decide (0 < w ∧ hasMeta w = true))) := by
  refine ⟨?_, by norm_num [historicalWeeks], ?_⟩
  · intro weeks h
    simp [historicalWeeks, h]
  · intro c f
    by_cases h1 : 1 < c ∧ f (c - 1) = true <;>
      by_cases h2 : 2 < c ∧ f (c - 2) = true <;>
        by_cases h3 : 3 < c ∧ f (c - 3) = true <;>
          by_cases h4 : 4 < c ∧ f (c - 4) = true
    all_goals
      simp only [last4Weeks, show List.range 4 = [0, 1, 2, 3] from rfl,
        List.foldl_cons, List.foldl_nil, List.filter_cons, List.filter_nil,
        decide_eq_true_eq]
      norm_num [h1, h2, h3, h4]

/-- C9 (amended) witness: an explicit week list is used as given, and a
concrete preceding-week window is produced. -/
theorem projection_default_witness :
    historicalWeeks [9] = [9] ∧
    last4Weeks 3 (fun _ => true) =
      (([3 - 1, 3 - 2, 3 - 3, 3 - 4] : List ℤ).filter
        (fun w => decide (0 < w ∧ True))) :=
  ⟨projection_default_windows.1 [9] (by norm_num),
    projection_default_windows.2.2 3 (fun _ => true)⟩

/-- C10: when the day's schedule fetch fails (transport error or non-OK
status, which the source converts into a thrown error), the still-empty
map is cached under the date and returned with no error raised; any
subsequent call for the date returns the cached empty map without
contacting the upstream service again. -/
theorem getDailyStatsMap_failure_caches_empty (cache : List (String × DayMap))
    (date : String) (fetch : FetchOutcome)
    (hmiss : lookupAssoc cache date = none)
    (hfail : fetch = FetchOutcome.networkError ∨ ∃ s, fetch = FetchOutcome.httpError s) :
    getDailyStatsMap cache date fetch = ([], (date, ([] : DayMap)) :: cache, true) ∧
    (∀ f2 : FetchOutcome,
      getDailyStatsMap ((getDailyStatsMap cache date fetch).2.1) date f2 =
        ([], (date, ([] : DayMap)) :: cache, false)) := by
  have h1 : getDailyStatsMap cache date fetch = ([], (date, ([] : DayMap)) :: cache, true) := by
    rcases hfail with rfl | ⟨s, rfl⟩ <;> simp [getDailyStatsMap, hmiss]
  refine ⟨h1, fun f2 => ?_⟩
  rw [h1]
  simp [getDailyStatsMap, lookupAssoc]

/-- C10 witness: a failed fetch caches the empty map; the next call for
the date returns it without fetching, even though the upstream would now
succeed. -/
theorem getDailyStatsMap_failure_witness :
    getDailyStatsMap [] "2025-07-04" FetchOutcome.networkError =
      ([], [("2025-07-04", ([] : DayMap))], true) ∧
    getDailyStatsMap [("2025-07-04", ([] : DayMap))] "2025-07-04" (FetchOutcome.ok zeroGames) =
      ([], [("2025-07-04", ([] : DayMap))], false) := by
  have h := getDailyStatsMap_failure_caches_empty [] "2025-07-04" FetchOutcome.networkError
    rfl (Or.inl rfl)
  exact ⟨h.1, h.2 (FetchOutcome.ok zeroGames)⟩

end FantasyFlow
